import Mathlib

/-!
Verification of the population-count benchmark repository.

The development shallowly embeds the two benchmark translation units:
count_bits_bench.cpp (the population-count strategies, their lookup
tables, the full-table parallel build, the sample generator and the
consistency checker) and reverse_int_bench.cpp (the signed decimal
reversal pair).  Machine integers are modelled as Nat (for uint32_t,
with explicit % 2^32 where C++ wraps) and Int (for int, using
truncating division Int.tdiv / Int.tmod, the C convention).
-/

set_option maxRecDepth 8192

/-- Specification of population count: the number of 1-bits in the binary
representation of a natural number, accumulated digit by digit. -/
def popcount (n : Nat) : Nat :=
  if h : n = 0 then 0 else n % 2 + popcount (n / 2)
decreasing_by exact Nat.div_lt_self (Nat.pos_of_ne_zero h) one_lt_two

theorem popcount_zero : popcount 0 = 0 := by
  unfold popcount
  rfl

theorem popcount_ne_zero (n : Nat) (h : n ≠ 0) :
    popcount n = n % 2 + popcount (n / 2) := by
  rw [popcount]
  simp [h]

theorem popcount_two_mul_add (m b : Nat) (hb : b < 2) :
    popcount (2 * m + b) = popcount m + b := by
  by_cases h0 : 2 * m + b = 0
  · have hm : m = 0 := by omega
    have hb0 : b = 0 := by omega
    subst hm; subst hb0
    simp [popcount_zero]
  · rw [popcount_ne_zero _ h0]
    have h2 : (2 * m + b) % 2 = b := by omega
    have h3 : (2 * m + b) / 2 = m := by omega
    rw [h2, h3]
    omega

/-- Distribution of bitwise and over the low binary digit. -/
theorem land_two_mul_add (a b c d : Nat) (hb : b < 2) (hd : d < 2) :
    (2 * a + b) &&& (2 * c + d) = 2 * (a &&& c) + (b &&& d) := by
  apply Nat.eq_of_testBit_eq
  intro i
  cases i with
  | zero =>
    rw [Nat.testBit_land, Nat.testBit_zero, Nat.testBit_zero, Nat.testBit_zero]
    have h1 : (2 * a + b) % 2 = b := by omega
    have h2 : (2 * c + d) % 2 = d := by omega
    have hbd : b &&& d < 2 := lt_of_le_of_lt Nat.and_le_left hb
    have h3 : (2 * (a &&& c) + (b &&& d)) % 2 = b &&& d := by omega
    rw [h1, h2, h3]
    interval_cases b <;> interval_cases d <;> rfl
  | succ i =>
    rw [Nat.testBit_land, Nat.testBit_succ, Nat.testBit_succ, Nat.testBit_succ]
    have h1 : (2 * a + b) / 2 = a := by omega
    have h2 : (2 * c + d) / 2 = c := by omega
    have h3 : (2 * (a &&& c) + (b &&& d)) / 2 = a &&& c := by
      have hbd : b &&& d < 2 := lt_of_le_of_lt Nat.and_le_left hb
      omega
    rw [h1, h2, h3, Nat.testBit_land]

theorem land_odd_self (m : Nat) : (2 * m + 1) &&& (2 * m) = 2 * m := by
  have h := land_two_mul_add m 1 m 0 (by omega) (by omega)
  simpa [Nat.and_self] using h

theorem land_even_pred (m : Nat) (hm : m ≠ 0) :
    (2 * m) &&& (2 * m - 1) = 2 * (m &&& (m - 1)) := by
  have h1 : 2 * m - 1 = 2 * (m - 1) + 1 := by omega
  have h := land_two_mul_add m 0 (m - 1) 1 (by omega) (by omega)
  rw [h1]
  simpa using h

/-- Clearing the lowest set bit removes exactly one 1-bit. -/
theorem popcount_land_pred (n : Nat) (hn : n ≠ 0) :
    popcount (n &&& (n - 1)) + 1 = popcount n := by
  induction n using Nat.strong_induction_on with
  | _ n ih =>
    obtain ⟨m, hm | hm⟩ := Nat.even_or_odd' n
    · subst hm
      have hm0 : m ≠ 0 := by omega
      rw [land_even_pred m hm0]
      have e1 : popcount (2 * (m &&& (m - 1))) = popcount (m &&& (m - 1)) := by
        simpa using popcount_two_mul_add (m &&& (m - 1)) 0 (by omega)
      have e2 : popcount (2 * m) = popcount m := by
        simpa using popcount_two_mul_add m 0 (by omega)
      rw [e1, e2]
      exact ih m (by omega) hm0
    · subst hm
      have h1 : 2 * m + 1 - 1 = 2 * m := by omega
      rw [h1, land_odd_self m]
      have e1 : popcount (2 * m) = popcount m := by
        simpa using popcount_two_mul_add m 0 (by omega)
      have e2 : popcount (2 * m + 1) = popcount m + 1 :=
        popcount_two_mul_add m 1 (by omega)
      rw [e1, e2]

namespace ReferenceSolution

/-- Body of ReferenceSolution::Count from count_bits_bench.cpp: the while
loop clears the lowest set bit (n &= n - 1) and counts iterations.  The
first argument is an explicit iteration budget so that the function is
structurally recursive and evaluates inside the kernel; the loop runs at
most n iterations since n strictly decreases. -/
def countLoop : Nat → Nat → Nat
  | _, 0 => 0
  | 0, _ + 1 => 0
  | fuel + 1, k + 1 => countLoop fuel ((k + 1) &&& k) + 1

/-- C++ ReferenceSolution::Count (uint32_t n): iterative clearing of the
lowest set bit until zero, counting iterations. -/
def Count (n : Nat) : Nat := countLoop n n

theorem countLoop_eq (fuel n : Nat) (h : n ≤ fuel) :
    countLoop fuel n = popcount n := by
  induction fuel generalizing n with
  | zero =>
    have hn : n = 0 := by omega
    subst hn
    simpa [countLoop] using popcount_zero.symm
  | succ fuel ih =>
    match n with
    | 0 => simpa [countLoop] using popcount_zero.symm
    | k + 1 =>
      have hle : (k + 1) &&& k ≤ fuel :=
        le_trans Nat.and_le_right (by omega)
      have hstep := popcount_land_pred (k + 1) (Nat.succ_ne_zero k)
      simp only [Nat.add_sub_cancel] at hstep
      rw [countLoop, ih _ hle, hstep]

/-- Reference popcount equals the specification bit count. -/
theorem Count_eq_popcount (n : Nat) : Count n = popcount n :=
  countLoop_eq n n le_rfl

end ReferenceSolution

example : ReferenceSolution.Count 11 = 3 := by decide
example : ReferenceSolution.Count 4294967295 = 32 := by decide

/-- Splitting a number at a power of two splits its population count. -/
theorem popcount_mod_div (k : Nat) : ∀ n : Nat,
    popcount n = popcount (n % 2 ^ k) + popcount (n / 2 ^ k) := by
  induction k with
  | zero =>
    intro n
    simp [Nat.mod_one, popcount_zero]
  | succ k ih =>
    intro n
    have hsplit : popcount n = popcount (n / 2) + n % 2 := by
      by_cases h : n = 0
      · subst h; simp [popcount_zero]
      · rw [popcount_ne_zero _ h]; omega
    have hpow : (2 : Nat) ^ (k + 1) = 2 * 2 ^ k := by ring
    have hmod : n % 2 ^ (k + 1) = 2 * (n / 2 % 2 ^ k) + n % 2 := by
      rw [hpow, Nat.mod_mul]
      ring
    have hpc : popcount (n % 2 ^ (k + 1)) = popcount (n / 2 % 2 ^ k) + n % 2 := by
      rw [hmod]
      exact popcount_two_mul_add (n / 2 % 2 ^ k) (n % 2) (by omega)
    have hdiv : n / 2 ^ (k + 1) = n / 2 / 2 ^ k := by
      rw [hpow, Nat.div_div_eq_div_mul]
    have ihh := ih (n / 2)
    rw [hpc, hdiv]
    omega

/-- Bitwise version of the popcount split, phrased with shift and mask as
the table strategies use it. -/
theorem popcount_shift_split (k n : Nat) :
    popcount n = popcount (n &&& (2 ^ k - 1)) + popcount (n >>> k) := by
  rw [Nat.and_pow_two_sub_one_eq_mod, Nat.shiftRight_eq_div_pow]
  exact popcount_mod_div k n

/-- C++ AsmSolution::Count from count_bits_bench.cpp: __builtin_popcount,
the hardware population-count instruction, whose defined result is the
number of 1-bits of its argument. -/
def AsmSolution.Count (n : Nat) : Nat := popcount n

namespace MagicSolution

/-- C++ MagicSolution::Count (uint32_t v), the SWAR bit trick.  All C++
intermediates are uint32_t, so every arithmetic step is reduced mod 2^32;
the final static_cast to uint16_t is the trailing % 65536. -/
def Count (v : Nat) : Nat :=
  let v1 := (v + 4294967296 - ((v >>> 1) &&& 0x55555555)) % 4294967296
  let v2 := ((v1 &&& 0x33333333) + ((v1 >>> 2) &&& 0x33333333)) % 4294967296
  (((((v2 + (v2 >>> 4)) % 4294967296 &&& 0xf0f0f0f) * 0x1010101) % 4294967296) >>> 24) % 65536

end MagicSolution

example : MagicSolution.Count 11 = 3 := by decide
example : MagicSolution.Count 4294967295 = 32 := by decide

/-- C++ CountTable<TableSize>() from count_bits_bench.cpp: an array whose
entry at each index ii of 0..TableSize-1 is ReferenceSolution::Count(ii). -/
def CountTable (tableSize : Nat) : Array Nat :=
  (Array.range tableSize).map ReferenceSolution.Count

theorem countTable_size (tableSize : Nat) : (CountTable tableSize).size = tableSize := by
  simp [CountTable]

theorem countTable_getD (tableSize i : Nat) (h : i < tableSize) :
    (CountTable tableSize).getD i 0 = ReferenceSolution.Count i := by
  have hs : i < (CountTable tableSize).size := by rw [countTable_size]; exact h
  rw [Array.getD, dif_pos hs]
  simp [CountTable]

theorem countTable_getD_oob (tableSize i : Nat) (h : tableSize ≤ i) :
    (CountTable tableSize).getD i 0 = 0 := by
  have hs : ¬ i < (CountTable tableSize).size := by rw [countTable_size]; omega
  rw [Array.getD, dif_neg hs]

theorem shiftRight_shiftRight (a k l : Nat) : (a >>> k) >>> l = a >>> (k + l) :=
  (Nat.shiftRight_add a k l).symm

namespace ByteTableSolution

/-- C++ static member ByteTableSolution::g_byteTable = CountTable<256>(). -/
def g_byteTable : Array Nat := CountTable 256

/-- C++ ByteTableSolution::Count (uint32_t n): sums the table entries of
the four 8-bit chunks; the source shifts n in place by 8 twice and then
once more in the last lookup expression. -/
def Count (n : Nat) : Nat :=
  let n1 := n >>> 8
  let n2 := n1 >>> 8
  g_byteTable.getD (n &&& 0xFF) 0 + g_byteTable.getD (n1 &&& 0xFF) 0 +
    g_byteTable.getD (n2 &&& 0xFF) 0 + g_byteTable.getD ((n2 >>> 8) &&& 0xFF) 0

theorem byteCount_lookup (n : Nat) :
    Count n =
      ReferenceSolution.Count (n &&& 255) + ReferenceSolution.Count ((n >>> 8) &&& 255) +
        ReferenceSolution.Count (((n >>> 8) >>> 8) &&& 255) +
        ReferenceSolution.Count ((((n >>> 8) >>> 8) >>> 8) &&& 255) := by
  have hb : ∀ m : Nat, m &&& 255 < 256 :=
    fun m => lt_of_le_of_lt Nat.and_le_right (by omega)
  simp only [Count, g_byteTable]
  rw [countTable_getD 256 (n &&& 255) (hb n),
    countTable_getD 256 ((n >>> 8) &&& 255) (hb _),
    countTable_getD 256 (((n >>> 8) >>> 8) &&& 255) (hb _),
    countTable_getD 256 ((((n >>> 8) >>> 8) >>> 8) &&& 255) (hb _)]

theorem byteCount_eq_ref (n : Nat) (h : n < 4294967296) :
    Count n = ReferenceSolution.Count n := by
  have hb : ∀ m : Nat, m &&& 255 < 256 :=
    fun m => lt_of_le_of_lt Nat.and_le_right (by omega)
  have e0 := countTable_getD 256 (n &&& 255) (hb n)
  have e1 := countTable_getD 256 ((n >>> 8) &&& 255) (hb _)
  have e2 := countTable_getD 256 (((n >>> 8) >>> 8) &&& 255) (hb _)
  have p1 := popcount_shift_split 8 n
  have p2 := popcount_shift_split 8 (n >>> 8)
  have p3 := popcount_shift_split 8 ((n >>> 8) >>> 8)
  norm_num at p1 p2 p3
  have h24 : ((n >>> 8) >>> 8) >>> 8 = n >>> 24 := by
    rw [shiftRight_shiftRight, shiftRight_shiftRight]
  have hlt : n >>> 24 < 256 := by
    rw [Nat.shiftRight_eq_div_pow]
    omega
  have e3 := countTable_getD 256 (((n >>> 8) >>> 8) >>> 8) (by rw [h24]; exact hlt)
  have hid : (((n >>> 8) >>> 8) >>> 8) &&& 255 = ((n >>> 8) >>> 8) >>> 8 := by
    rw [h24]
    have h2 := Nat.and_pow_two_sub_one_of_lt_two_pow (n := 8) hlt
    norm_num at h2
    exact h2
  simp only [Count, g_byteTable]
  rw [hid, e0, e1, e2, e3]
  rw [ReferenceSolution.Count_eq_popcount, ReferenceSolution.Count_eq_popcount,
    ReferenceSolution.Count_eq_popcount, ReferenceSolution.Count_eq_popcount,
    ReferenceSolution.Count_eq_popcount]
  omega

end ByteTableSolution

namespace ElevenBitsTableSolution

/-- C++ static member ElevenBitsTableSolution::g_byteTable = CountTable<2048>(). -/
def g_byteTable : Array Nat := CountTable 2048

/-- C++ ElevenBitsTableSolution::Count (uint32_t n): sums the table
entries of two 11-bit chunks and the unmasked top chunk n >> 22. -/
def Count (n : Nat) : Nat :=
  let n1 := n >>> 11
  g_byteTable.getD (n &&& 0b11111111111) 0 + g_byteTable.getD (n1 &&& 0b11111111111) 0 +
    g_byteTable.getD (n1 >>> 11) 0

theorem elevenCount_lookup (n : Nat) (h : (n >>> 11) >>> 11 < 2048) :
    Count n =
      ReferenceSolution.Count (n &&& 2047) + ReferenceSolution.Count ((n >>> 11) &&& 2047) +
        ReferenceSolution.Count ((n >>> 11) >>> 11) := by
  have hb : ∀ m : Nat, m &&& 2047 < 2048 :=
    fun m => lt_of_le_of_lt Nat.and_le_right (by omega)
  simp only [Count, g_byteTable]
  rw [show (0b11111111111 : Nat) = 2047 from rfl]
  rw [countTable_getD 2048 (n &&& 2047) (hb n),
    countTable_getD 2048 ((n >>> 11) &&& 2047) (hb _),
    countTable_getD 2048 ((n >>> 11) >>> 11) h]

theorem elevenCount_eq_ref (n : Nat) (h : n < 4294967296) :
    Count n = ReferenceSolution.Count n := by
  have hb : ∀ m : Nat, m &&& 2047 < 2048 :=
    fun m => lt_of_le_of_lt Nat.and_le_right (by omega)
  have h22 : (n >>> 11) >>> 11 = n >>> 22 := by rw [shiftRight_shiftRight]
  have hlt : n >>> 22 < 1024 := by
    rw [Nat.shiftRight_eq_div_pow]
    omega
  have e0 := countTable_getD 2048 (n &&& 2047) (hb n)
  have e1 := countTable_getD 2048 ((n >>> 11) &&& 2047) (hb _)
  have e2 := countTable_getD 2048 ((n >>> 11) >>> 11) (by rw [h22]; omega)
  have p1 := popcount_shift_split 11 n
  have p2 := popcount_shift_split 11 (n >>> 11)
  norm_num at p1 p2
  simp only [Count, g_byteTable]
  rw [show (0b11111111111 : Nat) = 2047 from rfl]
  rw [e0, e1, e2]
  rw [ReferenceSolution.Count_eq_popcount, ReferenceSolution.Count_eq_popcount,
    ReferenceSolution.Count_eq_popcount, ReferenceSolution.Count_eq_popcount]
  omega

end ElevenBitsTableSolution

namespace WordsTableSolution

/-- C++ static member WordsTableSolution::g_byteTable = CountTable<65536>(). -/
def g_byteTable : Array Nat := CountTable 65536

/-- C++ WordsTableSolution::Count (uint32_t n): sums the table entries of
the low 16-bit chunk and the unmasked high chunk n >> 16. -/
def Count (n : Nat) : Nat :=
  g_byteTable.getD (n &&& 0xFFFF) 0 + g_byteTable.getD (n >>> 16) 0

theorem wordsCount_lookup_oob (n : Nat) (h : 65536 ≤ n >>> 16) :
    Count n = ReferenceSolution.Count (n &&& 65535) + 0 := by
  have hb : n &&& 65535 < 65536 := lt_of_le_of_lt Nat.and_le_right (by omega)
  simp only [Count, g_byteTable]
  rw [countTable_getD 65536 (n &&& 65535) hb, countTable_getD_oob 65536 (n >>> 16) h]

theorem wordsCount_eq_ref (n : Nat) (h : n < 4294967296) :
    Count n = ReferenceSolution.Count n := by
  have hb : n &&& 65535 < 65536 := lt_of_le_of_lt Nat.and_le_right (by omega)
  have hlt : n >>> 16 < 65536 := by
    rw [Nat.shiftRight_eq_div_pow]
    omega
  have e0 := countTable_getD 65536 (n &&& 65535) hb
  have e1 := countTable_getD 65536 (n >>> 16) hlt
  have p1 := popcount_shift_split 16 n
  norm_num at p1
  simp only [Count, g_byteTable]
  rw [e0, e1]
  rw [ReferenceSolution.Count_eq_popcount, ReferenceSolution.Count_eq_popcount,
    ReferenceSolution.Count_eq_popcount]
  omega

end WordsTableSolution

namespace FullTableSolution

/-- Worker loop of FullTableSolution::CountFullTable: the worker with range
[start, finish) stores ElevenBitsTableSolution::Count(ii) at every index
ii of its range.  The 2^32-entry array is modelled as a map from index to
optionally-written entry read back at i; make_unique_noinit leaves
entries unwritten, hence none. -/
def writeLoop (t : Nat → Option Nat) (start finish i : Nat) : Option Nat :=
  if start < finish then
    writeLoop (Function.update t start (some (ElevenBitsTableSolution.Count start)))
      (start + 1) finish i
  else t i
termination_by finish - start
decreasing_by omega

theorem writeLoop_apply_fuel (fuel : Nat) :
    ∀ (t : Nat → Option Nat) (start finish i : Nat), finish - start ≤ fuel →
      writeLoop t start finish i =
        if start ≤ i ∧ i < finish then some (ElevenBitsTableSolution.Count i)
        else t i := by
  induction fuel with
  | zero =>
    intro t start finish i h
    rw [writeLoop, if_neg (by omega), if_neg (by omega)]
  | succ fuel ih =>
    intro t start finish i h
    rw [writeLoop]
    by_cases hs : start < finish
    · rw [if_pos hs, ih _ _ _ _ (by omega)]
      by_cases h1 : start + 1 ≤ i ∧ i < finish
      · rw [if_pos h1, if_pos (by omega)]
      · rw [if_neg h1, Function.update_apply]
        by_cases h2 : i = start
        · subst h2
          rw [if_pos rfl, if_pos (by omega)]
        · rw [if_neg h2, if_neg (by omega)]
    · rw [if_neg hs, if_neg (by omega)]

theorem writeLoop_apply (t : Nat → Option Nat) (start finish i : Nat) :
    writeLoop t start finish i =
      if start ≤ i ∧ i < finish then some (ElevenBitsTableSolution.Count i)
      else t i :=
  writeLoop_apply_fuel (finish - start) t start finish i le_rfl

/-- Worker-spawning loop of FullTableSolution::CountFullTable: worker ii
covers [ii * batch, (ii + 1) * batch) with batch = (1 << 32) / 4; the
workers write disjoint ranges, so the concurrent build is modelled as the
sequential composition of the worker loops over the uninitialized table. -/
def buildWorkers : Nat → Nat → Option Nat
  | 0, _ => none
  | ii + 1, j =>
    writeLoop (buildWorkers ii) (ii * ((1 <<< 32) / 4)) ((ii + 1) * ((1 <<< 32) / 4)) j

/-- C++ FullTableSolution::CountFullTable: the table of 1 << 32 entries
built by the 4 workers. -/
def CountFullTable (i : Nat) : Option Nat := buildWorkers 4 i

theorem buildWorkers_apply (k i : Nat) :
    buildWorkers k i =
      if i < k * 1073741824 then some (ElevenBitsTableSolution.Count i) else none := by
  have hbatch : (1 <<< 32) / 4 = 1073741824 := by norm_num [Nat.shiftLeft_eq]
  induction k with
  | zero => rw [buildWorkers, if_neg (by omega)]
  | succ k ih =>
    rw [buildWorkers, hbatch, writeLoop_apply, ih]
    by_cases h1 : k * 1073741824 ≤ i ∧ i < (k + 1) * 1073741824
    · rw [if_pos h1, if_pos (by nlinarith [h1.2])]
    · rw [if_neg h1]
      by_cases h2 : i < k * 1073741824
      · rw [if_pos h2, if_pos (by nlinarith)]
      · rw [if_neg h2, if_neg (by omega)]

theorem countFullTable_apply (i : Nat) :
    CountFullTable i =
      if i < 4294967296 then some (ElevenBitsTableSolution.Count i) else none := by
  rw [CountFullTable, buildWorkers_apply]

/-- C++ FullTableSolution::GetTable: the function-local static holding the
completed table for the rest of the process. -/
def GetTable : Nat → Option Nat := CountFullTable

/-- C++ FullTableSolution::Count (uint32_t n): a plain read of GetTable()[n]. -/
def Count (n : Nat) : Nat := (GetTable n).getD 0

theorem fullCount_eq_eleven (n : Nat) (h : n < 4294967296) :
    Count n = ElevenBitsTableSolution.Count n := by
  rw [Count, GetTable, countFullTable_apply, if_pos h, Option.getD_some]

theorem fullCount_eq_ref (n : Nat) (h : n < 4294967296) :
    Count n = ReferenceSolution.Count n := by
  rw [fullCount_eq_eleven n h, ElevenBitsTableSolution.elevenCount_eq_ref n h]

end FullTableSolution

/-- Representative sample of the specification: zero, all ones, every
power of two, and the two alternating-bit patterns. -/
def sampleValues : List Nat :=
  [0] ++ (List.range 32).map (fun k => 2 ^ k) ++ [0xFFFFFFFF, 0x55555555, 0xAAAAAAAA]

/-- All six non-reference strategies agree with the reference on any
uint32 input on which the SWAR strategy agrees with the reference. -/
theorem strategies_agree (n : Nat) (h32 : n < 4294967296)
    (hmagic : MagicSolution.Count n = ReferenceSolution.Count n) :
    AsmSolution.Count n = ReferenceSolution.Count n ∧
      MagicSolution.Count n = ReferenceSolution.Count n ∧
      ByteTableSolution.Count n = ReferenceSolution.Count n ∧
      ElevenBitsTableSolution.Count n = ReferenceSolution.Count n ∧
      WordsTableSolution.Count n = ReferenceSolution.Count n ∧
      FullTableSolution.Count n = ReferenceSolution.Count n :=
  ⟨(ReferenceSolution.Count_eq_popcount n).symm, hmagic,
    ByteTableSolution.byteCount_eq_ref n h32, ElevenBitsTableSolution.elevenCount_eq_ref n h32,
    WordsTableSolution.wordsCount_eq_ref n h32, FullTableSolution.fullCount_eq_ref n h32⟩

/-- State of the std::mt19937 engine: the 624 32-bit state words and the
index of the next word to read. -/
structure MtState where
  mt : Array Nat
  idx : Nat

/-- Seeding of std::mt19937: word 0 is the seed and word i is
1812433253 * (word (i-1) xor (word (i-1) >> 30)) + i, mod 2^32. -/
def mtInit (seed : Nat) : MtState :=
  ⟨(List.range 623).foldl
      (fun arr i =>
        let prev := arr.getD i 0
        arr.push ((1812433253 * (prev ^^^ (prev >>> 30)) + (i + 1)) % 4294967296))
      #[seed % 4294967296],
    624⟩

/-- Twist step of std::mt19937, updating the 624 state words in place. -/
def mtTwist (a : Array Nat) : Array Nat :=
  (List.range 624).foldl
    (fun a i =>
      let x := (a.getD i 0 &&& 2147483648) + (a.getD ((i + 1) % 624) 0 &&& 2147483647)
      let xA := if x % 2 = 1 then (x >>> 1) ^^^ 2567483615 else x >>> 1
      a.set! i ((a.getD ((i + 397) % 624) 0) ^^^ xA))
    a

/-- Drawing one value from std::mt19937: twist when the state is
exhausted, then temper and emit the next state word. -/
def mtNext (s : MtState) : Nat × MtState :=
  let s := if 624 ≤ s.idx then MtState.mk (mtTwist s.mt) 0 else s
  let y0 := s.mt.getD s.idx 0
  let y1 := y0 ^^^ (y0 >>> 11)
  let y2 := y1 ^^^ ((y1 <<< 7) &&& 2636928640)
  let y3 := y2 ^^^ ((y2 <<< 15) &&& 4022730752)
  let y4 := y3 ^^^ (y3 >>> 18)
  (y4, MtState.mk s.mt (s.idx + 1))

/-- Stream of count values drawn in order from an engine state. -/
def mtRun (s : MtState) : Nat → List Nat
  | 0 => []
  | k + 1 => (mtNext s).1 :: mtRun (mtNext s).2 k

theorem mtRun_length (s : MtState) (k : Nat) : (mtRun s k).length = k := by
  induction k generalizing s with
  | zero => rfl
  | succ k ih => simp [mtRun, ih]

/-- C++ GenerateNumbers from count_bits_bench.cpp, as a function of the
engine seed: std::generate fills an array of 100000 entries with draws
from std::uniform_int_distribution over [0, uint32 max] fed by
std::mt19937; over the full uint32 range the distribution passes the
32-bit engine output through unchanged. -/
def GenerateNumbers (seed : Nat) : List Nat := mtRun (mtInit seed) 100000

namespace BM_CountCheck

/-- Result array of one iteration of BM_CountCheck: every non-reference
strategy evaluated on the sampled value. -/
def ress (num : Nat) : List Nat :=
  [AsmSolution.Count num, ByteTableSolution.Count num,
    ElevenBitsTableSolution.Count num, WordsTableSolution.Count num,
    MagicSolution.Count num, FullTableSolution.Count num]

/-- Per-value check of BM_CountCheck: the C++ throws when
std::count(ress, etalon) differs from std::size(ress). -/
def throws (num : Nat) : Bool :=
  (ress num).count (ReferenceSolution.Count num) != 6

/-- Loop of BM_CountCheck over the sampled values: the first failing
value raises (modelled as Except.error carrying that value, where the
C++ throws std::runtime_error) and ends the run at once; otherwise the
run completes. -/
def run : List Nat → Except Nat Unit
  | [] => Except.ok ()
  | num :: rest => if throws num then Except.error num else run rest

theorem throws_iff (num : Nat) :
    throws num = true ↔ ∃ r ∈ ress num, r ≠ ReferenceSolution.Count num := by
  have hlen : (ress num).length = 6 := rfl
  constructor
  · intro h
    by_contra hno
    push_neg at hno
    have hall : ∀ r ∈ ress num, ReferenceSolution.Count num = r := fun r hr => (hno r hr).symm
    have hcount : (ress num).count (ReferenceSolution.Count num) = (ress num).length :=
      List.count_eq_length.mpr hall
    rw [throws, hcount, hlen] at h
    simp at h
  · intro ⟨r, hr, hne⟩
    rw [throws]
    have : (ress num).count (ReferenceSolution.Count num) ≠ (ress num).length := by
      intro hc
      exact hne ((List.count_eq_length.mp hc r hr).symm)
    rw [hlen] at this
    simpa using this

theorem run_error_iff (nums : List Nat) :
    (∃ e, run nums = Except.error e) ↔
      ∃ num ∈ nums, ∃ r ∈ ress num, r ≠ ReferenceSolution.Count num := by
  induction nums with
  | nil =>
    constructor
    · intro ⟨e, he⟩
      exact absurd he (by rw [run]; intro h; cases h)
    · intro ⟨num, hmem, _⟩
      cases hmem
  | cons num rest ih =>
    rw [run]
    by_cases ht : throws num
    · rw [if_pos ht]
      constructor
      · intro _
        exact ⟨num, List.mem_cons_self num rest, (throws_iff num).mp ht⟩
      · intro _
        exact ⟨num, rfl⟩
    · rw [if_neg ht]
      constructor
      · intro he
        obtain ⟨m, hm, hr⟩ := ih.mp he
        exact ⟨m, List.mem_cons_of_mem num hm, hr⟩
      · intro ⟨m, hm, hr⟩
        rcases List.mem_cons.mp hm with hm0 | hm1
        · subst hm0
          exact absurd ((throws_iff m).mpr hr) ht
        · exact ih.mpr ⟨m, hm1, hr⟩

end BM_CountCheck

namespace ReverseIntBench

/-- C limits.h INT_MIN for the 32-bit int of the benchmark target. -/
def INT_MIN : Int := -2147483648

/-- C limits.h INT_MAX for the 32-bit int of the benchmark target. -/
def INT_MAX : Int := 2147483647

/-- Decimal-digit reversal of a natural number into an accumulator,
peeling the lowest digit first. -/
def natRev (n acc : Nat) : Nat :=
  if h : n = 0 then acc else natRev (n / 10) (acc * 10 + n % 10)
decreasing_by exact Nat.div_lt_self (Nat.pos_of_ne_zero h) (by omega)

theorem natRev_zero (acc : Nat) : natRev 0 acc = acc := by
  unfold natRev
  rfl

theorem natRev_ne_zero (n acc : Nat) (h : n ≠ 0) :
    natRev n acc = natRev (n / 10) (acc * 10 + n % 10) := by
  rw [natRev]
  simp [h]

theorem natRev_ge (n : Nat) : ∀ acc : Nat, acc ≤ natRev n acc := by
  induction n using Nat.strong_induction_on with
  | _ n ih =>
    intro acc
    by_cases h : n = 0
    · subst h
      rw [natRev_zero]
    · rw [natRev_ne_zero n acc h]
      calc acc ≤ acc * 10 + n % 10 := by omega
        _ ≤ natRev (n / 10) (acc * 10 + n % 10) :=
          ih (n / 10) (Nat.div_lt_self (Nat.pos_of_ne_zero h) (by omega)) _

theorem natRev_ge_mul (n acc : Nat) (h : n ≠ 0) : acc * 10 ≤ natRev n acc := by
  rw [natRev_ne_zero n acc h]
  calc acc * 10 ≤ acc * 10 + n % 10 := by omega
    _ ≤ _ := natRev_ge (n / 10) _

/-- Specification from the claim: the decimal-digit reversal of x
preserving sign, and 0 whenever the reversed value would overflow the
int range. -/
def specValue (x : Int) : Int :=
  if 0 ≤ x then ((natRev x.natAbs 0 : Nat) : Int) else -((natRev x.natAbs 0 : Nat) : Int)

/-- Total reversal specification: the sign-preserving decimal reversal
when it fits the int range and 0 otherwise. -/
def reverseSpec (x : Int) : Int :=
  if INT_MIN ≤ specValue x ∧ specValue x ≤ INT_MAX then specValue x else 0

/-- Truncating remainder negates with its dividend, as in C. -/
theorem tmod_neg_arg (a b : Int) : (-a).tmod b = -(a.tmod b) := by
  rw [Int.tmod_def, Int.tmod_def, Int.neg_tdiv]
  ring

namespace MySolution

/-- While loop of MySolution::reverse from reverse_int_bench.cpp, reached
on nonpositive x: peels sub = x % 10, advances x to x / 10, returns 0 if
the accumulator res passed INT_MIN / 10 or would pass INT_MIN on this
digit, and otherwise accumulates res * 10 + sub.  C division and
remainder on int truncate toward zero, hence Int.tdiv and Int.tmod. -/
def reverseLoop (x res : Int) : Int :=
  if h : x = 0 then res
  else if res < INT_MIN.tdiv 10 then 0
  else if res = INT_MIN.tdiv 10 ∧ x.tmod 10 < -8 then 0
  else reverseLoop (x.tdiv 10) (res * 10 + x.tmod 10)
termination_by x.natAbs
decreasing_by
  rw [Int.natAbs_tdiv]
  exact Nat.div_lt_self (Int.natAbs_pos.mpr h) (by omega)

/-- C++ MySolution::reverse (int x): positive inputs recurse on the
negation, mapping a result of INT_MIN to 0 and negating back; otherwise
the digit loop runs directly. -/
def reverse (x : Int) : Int :=
  if h : 0 < x then
    if reverse (-x) = INT_MIN then 0 else -(reverse (-x))
  else reverseLoop x 0
termination_by (if 0 < x then 1 else 0)
decreasing_by
  all_goals rw [if_pos h, if_neg (by omega)]
  all_goals omega

end MySolution

namespace ReferenceSolution

/-- While loop of ReferenceSolution::reverse from reverse_int_bench.cpp:
peels pop = x % 10, advances x to x / 10, returns 0 if rev passed
INT_MAX / 10 or INT_MIN / 10 or would pass INT_MAX or INT_MIN on this
digit, and otherwise accumulates rev * 10 + pop. -/
def reverseLoop (x rev : Int) : Int :=
  if h : x = 0 then rev
  else if INT_MAX.tdiv 10 < rev ∨ (rev = INT_MAX.tdiv 10 ∧ 7 < x.tmod 10) then 0
  else if rev < INT_MIN.tdiv 10 ∨ (rev = INT_MIN.tdiv 10 ∧ x.tmod 10 < -8) then 0
  else reverseLoop (x.tdiv 10) (rev * 10 + x.tmod 10)
termination_by x.natAbs
decreasing_by
  rw [Int.natAbs_tdiv]
  exact Nat.div_lt_self (Int.natAbs_pos.mpr h) (by omega)

/-- C++ ReferenceSolution::reverse (int x): the digit loop from rev = 0. -/
def reverse (x : Int) : Int := reverseLoop x 0

end ReferenceSolution

theorem tmod10_of_nonpos (x : Int) (hx : x ≤ 0) :
    x.tmod 10 = -((x.natAbs % 10 : Nat) : Int) := by
  obtain ⟨m, hm⟩ : ∃ m : Nat, x = -(m : Int) := ⟨x.natAbs, by omega⟩
  subst hm
  rw [tmod_neg_arg]
  simp only [Int.natAbs_neg, Int.natAbs_ofNat]
  rw [show (10 : Int) = ((10 : Nat) : Int) from rfl, ← Int.ofNat_tmod]

theorem tdiv10_of_nonpos (x : Int) (hx : x ≤ 0) :
    x.tdiv 10 = -((x.natAbs / 10 : Nat) : Int) := by
  obtain ⟨m, hm⟩ : ∃ m : Nat, x = -(m : Int) := ⟨x.natAbs, by omega⟩
  subst hm
  rw [Int.neg_tdiv]
  simp only [Int.natAbs_neg, Int.natAbs_ofNat]
  rw [show (10 : Int) = ((10 : Nat) : Int) from rfl, ← Int.ofNat_tdiv]

theorem tmod10_of_nonneg (x : Int) (hx : 0 ≤ x) :
    x.tmod 10 = ((x.natAbs % 10 : Nat) : Int) := by
  obtain ⟨m, hm⟩ : ∃ m : Nat, x = (m : Int) := ⟨x.natAbs, by omega⟩
  subst hm
  simp only [Int.natAbs_ofNat]
  rw [show (10 : Int) = ((10 : Nat) : Int) from rfl, ← Int.ofNat_tmod]

theorem tdiv10_of_nonneg (x : Int) (hx : 0 ≤ x) :
    x.tdiv 10 = ((x.natAbs / 10 : Nat) : Int) := by
  obtain ⟨m, hm⟩ : ∃ m : Nat, x = (m : Int) := ⟨x.natAbs, by omega⟩
  subst hm
  simp only [Int.natAbs_ofNat]
  rw [show (10 : Int) = ((10 : Nat) : Int) from rfl, ← Int.ofNat_tdiv]

/-- Characterization of the MySolution loop on nonpositive arguments: it
yields the negated decimal reversal unless that reversal exceeds 2^31,
in which case it yields 0. -/
theorem myLoop_char : ∀ (m : Nat) (x res : Int), x.natAbs = m → x ≤ 0 → res ≤ 0 →
    INT_MIN ≤ res →
    MySolution.reverseLoop x res =
      (if natRev x.natAbs res.natAbs ≤ 2147483648
       then -((natRev x.natAbs res.natAbs : Nat) : Int) else 0) := by
  intro m
  induction m using Nat.strong_induction_on with
  | _ m ih =>
    intro x res hm hx hres hmin
    have hMIN : INT_MIN = -2147483648 := rfl
    rw [hMIN] at hmin
    by_cases h0 : x = 0
    · subst h0
      rw [MySolution.reverseLoop]
      simp only [dif_pos]
      simp only [Int.natAbs_zero, natRev_zero]
      rw [if_pos (by omega)]
      omega
    · subst hm
      have hane : x.natAbs ≠ 0 := by omega
      have hMd : INT_MIN.tdiv 10 = -214748364 := by decide
      have hsub := tmod10_of_nonpos x hx
      have hdiv := tdiv10_of_nonpos x hx
      rw [MySolution.reverseLoop, dif_neg h0, hMd]
      by_cases g1 : res < -214748364
      · rw [if_pos g1]
        have hge := natRev_ge_mul x.natAbs res.natAbs hane
        rw [if_neg (by omega)]
      · rw [if_neg g1]
        by_cases g2 : res = -214748364 ∧ x.tmod 10 < -8
        · rw [if_pos g2]
          have h9 : x.natAbs % 10 = 9 := by
            have h2 := g2.2
            rw [hsub] at h2
            omega
          have hstep := natRev_ne_zero x.natAbs res.natAbs hane
          have hacc : res.natAbs * 10 + x.natAbs % 10 = 2147483649 := by
            have h1 := g2.1
            omega
          have hge := natRev_ge (x.natAbs / 10) (res.natAbs * 10 + x.natAbs % 10)
          rw [if_neg (by omega)]
        · rw [if_neg g2]
          have g2' : res = -214748364 → -8 ≤ x.tmod 10 := by
            intro he
            by_contra hc
            exact g2 ⟨he, by omega⟩
          rw [hsub] at g2'
          have hmlt : x.natAbs / 10 < x.natAbs := Nat.div_lt_self (by omega) (by omega)
          have hx1a : (x.tdiv 10).natAbs = x.natAbs / 10 := by
            rw [hdiv]
            omega
          have hx1le : x.tdiv 10 ≤ 0 := by
            rw [hdiv]
            omega
          have hres' : res * 10 + x.tmod 10 ≤ 0 := by
            rw [hsub]
            omega
          have hmin' : INT_MIN ≤ res * 10 + x.tmod 10 := by
            rw [hMIN, hsub]
            omega
          have hrec := ih (x.natAbs / 10) hmlt (x.tdiv 10) (res * 10 + x.tmod 10)
            hx1a hx1le hres' hmin'
          rw [hrec, hx1a]
          have habs' : (res * 10 + x.tmod 10).natAbs = res.natAbs * 10 + x.natAbs % 10 := by
            rw [hsub]
            omega
          rw [habs', ← natRev_ne_zero x.natAbs res.natAbs hane]

/-- Characterization of the ReferenceSolution loop on nonpositive
arguments: identical to the MySolution loop, since the positive guards
cannot fire there. -/
theorem refLoopNeg_char : ∀ (m : Nat) (x rev : Int), x.natAbs = m → x ≤ 0 → rev ≤ 0 →
    INT_MIN ≤ rev →
    ReferenceSolution.reverseLoop x rev =
      (if natRev x.natAbs rev.natAbs ≤ 2147483648
       then -((natRev x.natAbs rev.natAbs : Nat) : Int) else 0) := by
  intro m
  induction m using Nat.strong_induction_on with
  | _ m ih =>
    intro x rev hm hx hres hmin
    have hMIN : INT_MIN = -2147483648 := rfl
    rw [hMIN] at hmin
    by_cases h0 : x = 0
    · subst h0
      rw [ReferenceSolution.reverseLoop]
      simp only [dif_pos]
      simp only [Int.natAbs_zero, natRev_zero]
      rw [if_pos (by omega)]
      omega
    · subst hm
      have hane : x.natAbs ≠ 0 := by omega
      have hMd : INT_MIN.tdiv 10 = -214748364 := by decide
      have hMx : INT_MAX.tdiv 10 = 214748364 := by decide
      have hsub := tmod10_of_nonpos x hx
      have hdiv := tdiv10_of_nonpos x hx
      rw [ReferenceSolution.reverseLoop, dif_neg h0, hMd, hMx]
      rw [if_neg (by omega)]
      by_cases g1 : rev < -214748364
      · rw [if_pos (Or.inl g1)]
        have hge := natRev_ge_mul x.natAbs rev.natAbs hane
        rw [if_neg (by omega)]
      · by_cases g2 : rev = -214748364 ∧ x.tmod 10 < -8
        · rw [if_pos (Or.inr g2)]
          have h9 : x.natAbs % 10 = 9 := by
            have h2 := g2.2
            rw [hsub] at h2
            omega
          have hstep := natRev_ne_zero x.natAbs rev.natAbs hane
          have hacc : rev.natAbs * 10 + x.natAbs % 10 = 2147483649 := by
            have h1 := g2.1
            omega
          have hge := natRev_ge (x.natAbs / 10) (rev.natAbs * 10 + x.natAbs % 10)
          rw [if_neg (by omega)]
        · rw [if_neg (by tauto)]
          have g2' : rev = -214748364 → -8 ≤ x.tmod 10 := by
            intro he
            by_contra hc
            exact g2 ⟨he, by omega⟩
          rw [hsub] at g2'
          have hmlt : x.natAbs / 10 < x.natAbs := Nat.div_lt_self (by omega) (by omega)
          have hx1a : (x.tdiv 10).natAbs = x.natAbs / 10 := by
            rw [hdiv]
            omega
          have hx1le : x.tdiv 10 ≤ 0 := by
            rw [hdiv]
            omega
          have hres' : rev * 10 + x.tmod 10 ≤ 0 := by
            rw [hsub]
            omega
          have hmin' : INT_MIN ≤ rev * 10 + x.tmod 10 := by
            rw [hMIN, hsub]
            omega
          have hrec := ih (x.natAbs / 10) hmlt (x.tdiv 10) (rev * 10 + x.tmod 10)
            hx1a hx1le hres' hmin'
          rw [hrec, hx1a]
          have habs' : (rev * 10 + x.tmod 10).natAbs = rev.natAbs * 10 + x.natAbs % 10 := by
            rw [hsub]
            omega
          rw [habs', ← natRev_ne_zero x.natAbs rev.natAbs hane]

/-- Characterization of the ReferenceSolution loop on nonnegative
arguments: it yields the decimal reversal unless that reversal exceeds
INT_MAX, in which case it yields 0. -/
theorem refLoopPos_char : ∀ (m : Nat) (x rev : Int), x.natAbs = m → 0 ≤ x → 0 ≤ rev →
    rev ≤ INT_MAX →
    ReferenceSolution.reverseLoop x rev =
      (if natRev x.natAbs rev.natAbs ≤ 2147483647
       then ((natRev x.natAbs rev.natAbs : Nat) : Int) else 0) := by
  intro m
  induction m using Nat.strong_induction_on with
  | _ m ih =>
    intro x rev hm hx hres hmax
    have hMAX : INT_MAX = 2147483647 := rfl
    rw [hMAX] at hmax
    by_cases h0 : x = 0
    · subst h0
      rw [ReferenceSolution.reverseLoop]
      simp only [dif_pos]
      simp only [Int.natAbs_zero, natRev_zero]
      rw [if_pos (by omega)]
      omega
    · subst hm
      have hane : x.natAbs ≠ 0 := by omega
      have hMd : INT_MIN.tdiv 10 = -214748364 := by decide
      have hMx : INT_MAX.tdiv 10 = 214748364 := by decide
      have hsub := tmod10_of_nonneg x hx
      have hdiv := tdiv10_of_nonneg x hx
      rw [ReferenceSolution.reverseLoop, dif_neg h0, hMd, hMx]
      by_cases g1 : 214748364 < rev
      · rw [if_pos (Or.inl g1)]
        have hge := natRev_ge_mul x.natAbs rev.natAbs hane
        rw [if_neg (by omega)]
      · by_cases g2 : rev = 214748364 ∧ 7 < x.tmod 10
        · rw [if_pos (Or.inr g2)]
          have h8 : 8 ≤ x.natAbs % 10 := by
            have h2 := g2.2
            rw [hsub] at h2
            omega
          have hstep := natRev_ne_zero x.natAbs rev.natAbs hane
          have hacc : 2147483648 ≤ rev.natAbs * 10 + x.natAbs % 10 := by
            have h1 := g2.1
            omega
          have hge := natRev_ge (x.natAbs / 10) (rev.natAbs * 10 + x.natAbs % 10)
          rw [if_neg (by omega)]
        · rw [if_neg (by tauto)]
          rw [if_neg (by omega)]
          have g2' : rev = 214748364 → x.tmod 10 ≤ 7 := by
            intro he
            by_contra hc
            exact g2 ⟨he, by omega⟩
          rw [hsub] at g2'
          have hmlt : x.natAbs / 10 < x.natAbs := Nat.div_lt_self (by omega) (by omega)
          have hx1a : (x.tdiv 10).natAbs = x.natAbs / 10 := by
            rw [hdiv]
            omega
          have hx1le : 0 ≤ x.tdiv 10 := by
            rw [hdiv]
            omega
          have hres' : 0 ≤ rev * 10 + x.tmod 10 := by
            rw [hsub]
            omega
          have hmax' : rev * 10 + x.tmod 10 ≤ INT_MAX := by
            rw [hMAX, hsub]
            omega
          have hrec := ih (x.natAbs / 10) hmlt (x.tdiv 10) (rev * 10 + x.tmod 10)
            hx1a hx1le hres' hmax'
          rw [hrec, hx1a]
          have habs' : (rev * 10 + x.tmod 10).natAbs = rev.natAbs * 10 + x.natAbs % 10 := by
            rw [hsub]
            omega
          rw [habs', ← natRev_ne_zero x.natAbs rev.natAbs hane]

/-- ReferenceSolution::reverse computes the specification reversal. -/
theorem refReverse_eq_spec (x : Int) :
    ReferenceSolution.reverse x = reverseSpec x := by
  rw [ReferenceSolution.reverse, reverseSpec, specValue]
  simp only [INT_MIN, INT_MAX]
  by_cases hx : 0 ≤ x
  · rw [refLoopPos_char x.natAbs x 0 rfl hx le_rfl (by decide)]
    simp only [Int.natAbs_zero]
    rw [if_pos hx]
    by_cases hv : natRev x.natAbs 0 ≤ 2147483647
    · rw [if_pos hv, if_pos (by omega)]
    · rw [if_neg hv, if_neg (by omega)]
  · rw [refLoopNeg_char x.natAbs x 0 rfl (by omega) le_rfl (by decide)]
    simp only [Int.natAbs_zero]
    rw [if_neg hx]
    by_cases hv : natRev x.natAbs 0 ≤ 2147483648
    · rw [if_pos hv, if_pos (by omega)]
    · rw [if_neg hv, if_neg (by omega)]

/-- MySolution::reverse computes the specification reversal. -/
theorem myReverse_eq_spec (x : Int) :
    MySolution.reverse x = reverseSpec x := by
  rw [MySolution.reverse, reverseSpec, specValue]
  by_cases hx : 0 < x
  · rw [dif_pos hx]
    have hneg : MySolution.reverse (-x) = MySolution.reverseLoop (-x) 0 := by
      rw [MySolution.reverse, dif_neg (by omega)]
    rw [hneg, myLoop_char (-x).natAbs (-x) 0 rfl (by omega) le_rfl (by decide)]
    simp only [Int.natAbs_zero, Int.natAbs_neg]
    simp only [INT_MIN, INT_MAX]
    rw [if_pos (le_of_lt hx)]
    by_cases hv : natRev x.natAbs 0 ≤ 2147483648
    · rw [if_pos hv]
      by_cases hEq : natRev x.natAbs 0 = 2147483648
      · rw [if_pos (by rw [hEq]; decide), if_neg (by omega)]
      · rw [if_neg (by omega), if_pos (by omega)]
        omega
    · rw [if_neg hv]
      rw [if_neg (by decide), if_neg (by omega)]
      decide
  · rw [dif_neg hx]
    rw [myLoop_char x.natAbs x 0 rfl (by omega) le_rfl (by decide)]
    simp only [Int.natAbs_zero]
    simp only [INT_MIN, INT_MAX]
    by_cases hx0 : 0 ≤ x
    · have hx00 : x = 0 := by omega
      subst hx00
      simp only [Int.natAbs_zero, natRev_zero]
      norm_num
    · rw [if_neg hx0]
      by_cases hv : natRev x.natAbs 0 ≤ 2147483648
      · rw [if_pos hv, if_pos (by omega)]
      · rw [if_neg hv, if_neg (by omega)]

/-- The two reversal routines agree everywhere. -/
theorem myReverse_eq_refReverse (x : Int) :
    MySolution.reverse x = ReferenceSolution.reverse x := by
  rw [myReverse_eq_spec, refReverse_eq_spec]

end ReverseIntBench

/-- C1: for every strategy S in {Hardware, Magic, Byte-table,
Eleven-bit-table, Word-table, Full-table} and every uint32 value n in the
representative sample containing 0, 0xFFFFFFFF, every power of two,
0x55555555 and 0xAAAAAAAA, S.Count(n) equals ReferenceSolution.Count(n). -/
theorem claim_C1 : ∀ n ∈ sampleValues,
    AsmSolution.Count n = ReferenceSolution.Count n ∧
      MagicSolution.Count n = ReferenceSolution.Count n ∧
      ByteTableSolution.Count n = ReferenceSolution.Count n ∧
      ElevenBitsTableSolution.Count n = ReferenceSolution.Count n ∧
      WordsTableSolution.Count n = ReferenceSolution.Count n ∧
      FullTableSolution.Count n = ReferenceSolution.Count n := by
  have hall : ∀ n ∈ sampleValues,
      n < 4294967296 ∧ MagicSolution.Count n = ReferenceSolution.Count n := by decide
  intro n hn
  exact strategies_agree n (hall n hn).1 (hall n hn).2

/-- Witness for C1 at the sample value 0x55555555. -/
theorem claim_C1_witness :
    1431655765 ∈ sampleValues ∧
      (AsmSolution.Count 1431655765 = ReferenceSolution.Count 1431655765 ∧
        MagicSolution.Count 1431655765 = ReferenceSolution.Count 1431655765 ∧
        ByteTableSolution.Count 1431655765 = ReferenceSolution.Count 1431655765 ∧
        ElevenBitsTableSolution.Count 1431655765 = ReferenceSolution.Count 1431655765 ∧
        WordsTableSolution.Count 1431655765 = ReferenceSolution.Count 1431655765 ∧
        FullTableSolution.Count 1431655765 = ReferenceSolution.Count 1431655765) :=
  ⟨by decide, claim_C1 1431655765 (by decide)⟩

/-- C2: for every uint32 n, ReferenceSolution.Count(n) equals the number
of 1-bits of n, the bit-clearing loop being total and pure. -/
theorem claim_C2 : ∀ n : Nat, ReferenceSolution.Count n = popcount n :=
  ReferenceSolution.Count_eq_popcount

/-- C3: every lookup table built by the table-construction routine
(sizes 256, 2048, 65536, and the 2^32 full table) holds
ReferenceSolution.Count(i) at every index i of its domain. -/
theorem claim_C3 :
    (∀ i, i < 256 → (CountTable 256).getD i 0 = ReferenceSolution.Count i) ∧
      (∀ i, i < 2048 → (CountTable 2048).getD i 0 = ReferenceSolution.Count i) ∧
      (∀ i, i < 65536 → (CountTable 65536).getD i 0 = ReferenceSolution.Count i) ∧
      (∀ i, i < 4294967296 →
        FullTableSolution.CountFullTable i = some (ReferenceSolution.Count i)) := by
  refine ⟨fun i h => countTable_getD 256 i h, fun i h => countTable_getD 2048 i h,
    fun i h => countTable_getD 65536 i h, fun i h => ?_⟩
  rw [FullTableSolution.countFullTable_apply, if_pos h,
    ElevenBitsTableSolution.elevenCount_eq_ref i h]

/-- Witness for C3 at index 5 of each table and index 7 of the full table. -/
theorem claim_C3_witness :
    5 < 256 ∧ (CountTable 256).getD 5 0 = ReferenceSolution.Count 5 ∧
      5 < 2048 ∧ (CountTable 2048).getD 5 0 = ReferenceSolution.Count 5 ∧
      5 < 65536 ∧ (CountTable 65536).getD 5 0 = ReferenceSolution.Count 5 ∧
      7 < 4294967296 ∧
      FullTableSolution.CountFullTable 7 = some (ReferenceSolution.Count 7) :=
  ⟨by decide, claim_C3.1 5 (by decide), by decide, claim_C3.2.1 5 (by decide),
    by decide, claim_C3.2.2.1 5 (by decide), by decide, claim_C3.2.2.2 7 (by decide)⟩

/-- C4: the full-table build partitions the 2^32 index domain into
exactly 4 equal, disjoint, contiguous ranges [ii * 2^30, (ii+1) * 2^30)
covering the domain with no gaps and no overlaps (4 divides 2^32
evenly), and each entry i is set to ElevenBitsTableSolution.Count(i). -/
theorem claim_C4 :
    4 * ((1 <<< 32) / 4) = 4294967296 ∧
      (∀ i, i < 4294967296 →
        ∃! ii, ii < 4 ∧ ii * ((1 <<< 32) / 4) ≤ i ∧ i < (ii + 1) * ((1 <<< 32) / 4)) ∧
      (∀ i, i < 4294967296 →
        FullTableSolution.CountFullTable i = some (ElevenBitsTableSolution.Count i)) := by
  have hbatch : (1 <<< 32) / 4 = 1073741824 := by norm_num [Nat.shiftLeft_eq]
  refine ⟨by rw [hbatch], fun i h => ?_,
    fun i h => by rw [FullTableSolution.countFullTable_apply, if_pos h]⟩
  rw [hbatch]
  refine ⟨i / 1073741824, ⟨by omega, by omega, by omega⟩, ?_⟩
  rintro y ⟨hy1, hy2, hy3⟩
  omega

/-- Witness for C4 at index 3000000000, which lies in partition 2. -/
theorem claim_C4_witness :
    4 * ((1 <<< 32) / 4) = 4294967296 ∧
      (∃! ii, ii < 4 ∧ ii * ((1 <<< 32) / 4) ≤ 3000000000 ∧
        3000000000 < (ii + 1) * ((1 <<< 32) / 4)) ∧
      FullTableSolution.CountFullTable 3000000000 =
        some (ElevenBitsTableSolution.Count 3000000000) :=
  ⟨claim_C4.1, claim_C4.2.1 3000000000 (by decide), claim_C4.2.2 3000000000 (by decide)⟩

/-- C5: the consistency checker raises a failure exactly when some
strategy disagrees with the reference on some sampled value, and a
failing value stops the run immediately, whatever values follow. -/
theorem claim_C5 :
    (∀ nums : List Nat,
      (∃ e, BM_CountCheck.run nums = Except.error e) ↔
        ∃ num ∈ nums, ∃ r ∈ BM_CountCheck.ress num, r ≠ ReferenceSolution.Count num) ∧
      (∀ num rest, BM_CountCheck.throws num = true →
        BM_CountCheck.run (num :: rest) = Except.error num) :=
  ⟨BM_CountCheck.run_error_iff, fun num rest h => by rw [BM_CountCheck.run, if_pos h]⟩

/-- Witness for C5 at the out-of-domain value 2^32, on which the
truncating table strategies disagree with the reference. -/
theorem claim_C5_witness :
    BM_CountCheck.throws 4294967296 = true ∧
      BM_CountCheck.run [4294967296, 3] = Except.error 4294967296 := by
  have e1 : AsmSolution.Count 4294967296 = ReferenceSolution.Count 4294967296 :=
    (ReferenceSolution.Count_eq_popcount 4294967296).symm
  have e1' : AsmSolution.Count 4294967296 = 1 := by
    rw [e1]
    decide
  have e2' : ByteTableSolution.Count 4294967296 = 0 := by
    rw [ByteTableSolution.byteCount_lookup 4294967296]
    decide
  have e3' : ElevenBitsTableSolution.Count 4294967296 = 1 := by
    rw [ElevenBitsTableSolution.elevenCount_lookup 4294967296 (by decide)]
    decide
  have e4' : WordsTableSolution.Count 4294967296 = 0 := by
    rw [WordsTableSolution.wordsCount_lookup_oob 4294967296 (by decide)]
    decide
  have e5 : MagicSolution.Count 4294967296 = 0 := by decide
  have e6 : FullTableSolution.Count 4294967296 = 0 := by
    rw [FullTableSolution.Count, FullTableSolution.GetTable,
      FullTableSolution.countFullTable_apply, if_neg (by decide)]
    rfl
  have hress : BM_CountCheck.ress 4294967296 = [1, 0, 1, 0, 0, 0] := by
    rw [BM_CountCheck.ress, e1', e2', e3', e4', e5, e6]
  have hthrows : BM_CountCheck.throws 4294967296 = true := by
    rw [BM_CountCheck.throws, hress]
    rw [show ReferenceSolution.Count 4294967296 = 1 from by decide]
    decide
  exact ⟨hthrows, claim_C5.2 4294967296 [3] hthrows⟩

/-- C7: the sample-set generator is deterministic in the seed and yields
exactly 100000 values. -/
theorem claim_C7 : ∀ s1 s2 : Nat, s1 = s2 →
    GenerateNumbers s1 = GenerateNumbers s2 ∧ (GenerateNumbers s1).length = 100000 := by
  intro s1 s2 h
  subst h
  exact ⟨rfl, mtRun_length _ _⟩

/-- Witness for C7 at the fixed seed 42 of the benchmark. -/
theorem claim_C7_witness :
    (42 : Nat) = 42 ∧ GenerateNumbers 42 = GenerateNumbers 42 ∧
      (GenerateNumbers 42).length = 100000 :=
  ⟨rfl, (claim_C7 42 42 rfl).1, (claim_C7 42 42 rfl).2⟩

/-- C8: every strategy maps 0 to 0, 0xFFFFFFFF to 32, 0b1011 to 3,
0x80000000 to 1 and 0x55555555 to 16. -/
theorem claim_C8 :
    (ReferenceSolution.Count 0 = 0 ∧ AsmSolution.Count 0 = 0 ∧
      MagicSolution.Count 0 = 0 ∧ ByteTableSolution.Count 0 = 0 ∧
      ElevenBitsTableSolution.Count 0 = 0 ∧ WordsTableSolution.Count 0 = 0 ∧
      FullTableSolution.Count 0 = 0) ∧
    (ReferenceSolution.Count 4294967295 = 32 ∧ AsmSolution.Count 4294967295 = 32 ∧
      MagicSolution.Count 4294967295 = 32 ∧ ByteTableSolution.Count 4294967295 = 32 ∧
      ElevenBitsTableSolution.Count 4294967295 = 32 ∧ WordsTableSolution.Count 4294967295 = 32 ∧
      FullTableSolution.Count 4294967295 = 32) ∧
    (ReferenceSolution.Count 11 = 3 ∧ AsmSolution.Count 11 = 3 ∧
      MagicSolution.Count 11 = 3 ∧ ByteTableSolution.Count 11 = 3 ∧
      ElevenBitsTableSolution.Count 11 = 3 ∧ WordsTableSolution.Count 11 = 3 ∧
      FullTableSolution.Count 11 = 3) ∧
    (ReferenceSolution.Count 2147483648 = 1 ∧ AsmSolution.Count 2147483648 = 1 ∧
      MagicSolution.Count 2147483648 = 1 ∧ ByteTableSolution.Count 2147483648 = 1 ∧
      ElevenBitsTableSolution.Count 2147483648 = 1 ∧ WordsTableSolution.Count 2147483648 = 1 ∧
      FullTableSolution.Count 2147483648 = 1) ∧
    (ReferenceSolution.Count 1431655765 = 16 ∧ AsmSolution.Count 1431655765 = 16 ∧
      MagicSolution.Count 1431655765 = 16 ∧ ByteTableSolution.Count 1431655765 = 16 ∧
      ElevenBitsTableSolution.Count 1431655765 = 16 ∧ WordsTableSolution.Count 1431655765 = 16 ∧
      FullTableSolution.Count 1431655765 = 16) := by
  refine ⟨?_, ?_, ?_, ?_, ?_⟩
  · obtain ⟨a1, a2, a3, a4, a5, a6⟩ := strategies_agree 0 (by decide) (by decide)
    have hr : ReferenceSolution.Count 0 = 0 := by decide
    exact ⟨hr, by rw [a1, hr], by rw [a2, hr], by rw [a3, hr], by rw [a4, hr],
      by rw [a5, hr], by rw [a6, hr]⟩
  · obtain ⟨a1, a2, a3, a4, a5, a6⟩ := strategies_agree 4294967295 (by decide) (by decide)
    have hr : ReferenceSolution.Count 4294967295 = 32 := by decide
    exact ⟨hr, by rw [a1, hr], by rw [a2, hr], by rw [a3, hr], by rw [a4, hr],
      by rw [a5, hr], by rw [a6, hr]⟩
  · obtain ⟨a1, a2, a3, a4, a5, a6⟩ := strategies_agree 11 (by decide) (by decide)
    have hr : ReferenceSolution.Count 11 = 3 := by decide
    exact ⟨hr, by rw [a1, hr], by rw [a2, hr], by rw [a3, hr], by rw [a4, hr],
      by rw [a5, hr], by rw [a6, hr]⟩
  · obtain ⟨a1, a2, a3, a4, a5, a6⟩ := strategies_agree 2147483648 (by decide) (by decide)
    have hr : ReferenceSolution.Count 2147483648 = 1 := by decide
    exact ⟨hr, by rw [a1, hr], by rw [a2, hr], by rw [a3, hr], by rw [a4, hr],
      by rw [a5, hr], by rw [a6, hr]⟩
  · obtain ⟨a1, a2, a3, a4, a5, a6⟩ := strategies_agree 1431655765 (by decide) (by decide)
    have hr : ReferenceSolution.Count 1431655765 = 16 := by decide
    exact ⟨hr, by rw [a1, hr], by rw [a2, hr], by rw [a3, hr], by rw [a4, hr],
      by rw [a5, hr], by rw [a6, hr]⟩

/-- C9: for every uint32 n, all table indexes computed by the partitioned
table strategies are within the bounds of their tables: the four byte
chunks are below 256, the three eleven-bit chunks below 2048 (the final
chunk n >> 22 even below 1024), and the two word chunks below 65536. -/
theorem claim_C9 : ∀ n : Nat, n < 4294967296 →
    (n &&& 255 < (CountTable 256).size ∧
      (n >>> 8) &&& 255 < (CountTable 256).size ∧
      ((n >>> 8) >>> 8) &&& 255 < (CountTable 256).size ∧
      (((n >>> 8) >>> 8) >>> 8) &&& 255 < (CountTable 256).size) ∧
    (n &&& 2047 < (CountTable 2048).size ∧
      (n >>> 11) &&& 2047 < (CountTable 2048).size ∧
      (n >>> 11) >>> 11 < 1024 ∧
      (n >>> 11) >>> 11 < (CountTable 2048).size) ∧
    (n &&& 65535 < (CountTable 65536).size ∧
      n >>> 16 < (CountTable 65536).size) := by
  intro n h
  simp only [countTable_size]
  have h22 : (n >>> 11) >>> 11 = n >>> 22 := by rw [shiftRight_shiftRight]
  have hd22 : n >>> 22 < 1024 := by
    rw [Nat.shiftRight_eq_div_pow]
    omega
  have hd16 : n >>> 16 < 65536 := by
    rw [Nat.shiftRight_eq_div_pow]
    omega
  refine ⟨⟨?_, ?_, ?_, ?_⟩, ⟨?_, ?_, ?_, ?_⟩, ⟨?_, ?_⟩⟩
  · exact lt_of_le_of_lt Nat.and_le_right (by omega)
  · exact lt_of_le_of_lt Nat.and_le_right (by omega)
  · exact lt_of_le_of_lt Nat.and_le_right (by omega)
  · exact lt_of_le_of_lt Nat.and_le_right (by omega)
  · exact lt_of_le_of_lt Nat.and_le_right (by omega)
  · exact lt_of_le_of_lt Nat.and_le_right (by omega)
  · rw [h22]
    exact hd22
  · rw [h22]
    omega
  · exact lt_of_le_of_lt Nat.and_le_right (by omega)
  · exact hd16

/-- Witness for C9 at the all-ones input 0xFFFFFFFF. -/
theorem claim_C9_witness :
    4294967295 < 4294967296 ∧
      (4294967295 >>> 11) >>> 11 < 1024 ∧
      4294967295 &&& 65535 < (CountTable 65536).size :=
  ⟨by decide, (claim_C9 4294967295 (by decide)).2.1.2.2.1,
    (claim_C9 4294967295 (by decide)).2.2.1⟩

/-- C10: for every int x, MySolution.reverse(x) equals
ReferenceSolution.reverse(x), and both equal the sign-preserving
decimal-digit reversal that yields 0 on int overflow (including at
x = INT_MIN). -/
theorem claim_C10 : ∀ x : Int,
    ReverseIntBench.INT_MIN ≤ x → x ≤ ReverseIntBench.INT_MAX →
    ReverseIntBench.MySolution.reverse x = ReverseIntBench.ReferenceSolution.reverse x ∧
      ReverseIntBench.ReferenceSolution.reverse x = ReverseIntBench.reverseSpec x :=
  fun x _ _ =>
    ⟨ReverseIntBench.myReverse_eq_refReverse x, ReverseIntBench.refReverse_eq_spec x⟩

/-- Witness for C10 at x = INT_MIN. -/
theorem claim_C10_witness :
    ReverseIntBench.INT_MIN ≤ -2147483648 ∧ (-2147483648 : Int) ≤ ReverseIntBench.INT_MAX ∧
      ReverseIntBench.MySolution.reverse (-2147483648) =
        ReverseIntBench.ReferenceSolution.reverse (-2147483648) ∧
      ReverseIntBench.ReferenceSolution.reverse (-2147483648) =
        ReverseIntBench.reverseSpec (-2147483648) :=
  ⟨by decide, by decide, (claim_C10 (-2147483648) (by decide) (by decide)).1,
    (claim_C10 (-2147483648) (by decide) (by decide)).2⟩
